import Mathlib

/-!
Verification of the Jasper/QuartzNet length-masking, schedule-generation and
dense-residual logic, shallowly embedded from
`chainer_/chainercv2/models/jasper.py` and `tensorflow2/tf2cv/models/jasper.py`.

Conventions of the embedding:
* Python integers are `Int`; Python `//` is floor division, i.e. `Int.fdiv`.
* A single batch element of a `(batch, channels, time)` tensor is modelled as
  `List (List Int)` (channel-major list of time rows); real-valued network
  weights are modelled over `Int` (the claims under study are about shapes,
  lengths, masking and summation structure, none of which depend on the
  scalar field).
* Dropout in the forward pass is kept as an explicit function parameter
  (in the repository's inference path it is the identity).
-/

/-- Python floor division `//` on integers. -/
def pyFloorDiv (a b : Int) : Int := Int.fdiv a b

namespace MaskConv1d

/-- Valid-length update of the Chainer port, from
`chainer_/chainercv2/models/jasper.py` line 105:
`x_len = (x_len + 2 * self.pad0 - self.dilate[0] * (self.ksize[0] - 1) - 1) // self.stride0 + 1`. -/
def lenUpdateChainer (ksize stride pad dilate xLen : Int) : Int :=
  pyFloorDiv (xLen + 2 * pad - dilate * (ksize - 1) - 1) stride + 1

/-- Valid-length update of the TensorFlow port, from
`tensorflow2/tf2cv/models/jasper.py` line 123:
`x_len = (x_len + 2 * self.padding - self.dilation * (self.kernel_size - 1) - 1) // self.strides + 1`. -/
def lenUpdateTF (kernelSize strides padding dilation xLen : Int) : Int :=
  pyFloorDiv (xLen + 2 * padding - dilation * (kernelSize - 1) - 1) strides + 1

end MaskConv1d

namespace GetJasper

/-- `stage_repeat = np.full((8,), 1); stage_repeat[1:-2] *= main_stage_repeat`
(`get_jasper`, Chainer port lines 694-695, TF port lines 768-769): the slice
`[1:-2]` of the 8-entry array covers indices 1..5. -/
def stageRepeat (r : Nat) : List Nat := [1, r, r, r, r, r, 1, 1]

/-- `sum([[a] * r for (a, r) in zip(table, stage_repeat)], [])`
(`get_jasper`, Chainer port lines 696-698, TF port lines 770-772). -/
def expandStages {α : Type} (table : List α) (r : Nat) : List α :=
  ((table.zip (stageRepeat r)).map (fun p => List.replicate p.2 p.1)).flatten

/-- `channels_per_stage` for the `"jasper"` family (both ports). -/
def jasperChannelsPerStage : List Nat := [256, 256, 384, 512, 640, 768, 896, 1024]

/-- `ksizes_per_stage` for the `"jasper"` family (both ports). -/
def jasperKsizesPerStage : List Nat := [11, 11, 13, 17, 21, 25, 29, 1]

/-- `dropout_rates_per_stage` for the `"jasper"` family (both ports). -/
def jasperDropoutRatesPerStage : List ℚ := [2/10, 2/10, 2/10, 2/10, 3/10, 3/10, 4/10, 4/10]

/-- `channels_per_stage` for the `"quartznet"` family (both ports). -/
def quartznetChannelsPerStage : List Nat := [256, 256, 256, 512, 512, 512, 512, 1024]

/-- `ksizes_per_stage` for the `"quartznet"` family (both ports). -/
def quartznetKsizesPerStage : List Nat := [33, 33, 39, 51, 63, 75, 87, 1]

/-- `dropout_rates_per_stage` for the `"quartznet"` family (both ports). -/
def quartznetDropoutRatesPerStage : List ℚ := [0, 0, 0, 0, 0, 0, 0, 0]

end GetJasper

/-- A single time row of activations. -/
abbrev Row := List Int

/-- One batch element of a `(channels, time)` activation map. -/
abbrev Tensor := List Row

/-- Entry of a tensor at channel `c` and time `t` (default 0 out of range). -/
def entry (x : Tensor) (c t : Nat) : Int := (x.getD c []).getD t 0

/-- `x` has `chn` channel rows, each of physical time length `tim`. -/
def HasDims (x : Tensor) (chn tim : Nat) : Prop :=
  x.length = chn ∧ ∀ r ∈ x, r.length = tim

instance (x : Tensor) (chn tim : Nat) : Decidable (HasDims x chn tim) :=
  inferInstanceAs (Decidable (x.length = chn ∧ ∀ r ∈ x, r.length = tim))

/-- Broadcast-and-multiply semantics of the mask applied to one row:
`mask = (arange(T) < x_len); x *= mask` (Chainer port lines 102-104; the TF
port's `tf.where(mask, x, zeros)` on lines 113-122 has the same semantics). -/
def maskRow (xLen : Int) (row : Row) : Row :=
  (List.range row.length).map (fun (t : Nat) => (if (t : Int) < xLen then 1 else 0) * row.getD t 0)

/-- The whole masking step of `MaskConv1d`, per channel row. -/
def maskTensor (xLen : Int) (x : Tensor) : Tensor := x.map (maskRow xLen)

/-- Zero padding of one row on both sides, part of the host framework's
convolution primitive. -/
def padRow (p : Nat) (row : Row) : Row :=
  List.replicate p 0 ++ row ++ List.replicate p 0

/-- One output sample of a correlation of kernel `w` against padded row `xp`
at output position `t` with stride `s` and dilation `d`. -/
def convAt (w : Row) (s d : Nat) (xp : Row) (t : Nat) : Int :=
  ((List.range w.length).map (fun k => w.getD k 0 * xp.getD (t * s + k * d) 0)).sum

/-- Physical output length of a 1D convolution (the host framework's output
size rule, the same formula the ports use for the valid length). -/
def convOutLenN (ksize s p d tim : Nat) : Nat := (tim + 2 * p - d * (ksize - 1) - 1) / s + 1

/-- Functional semantics of the framework 1D convolution
(`F.convolution_1d` in the Chainer port, line 106-113): weights `W` are
indexed `(out channel, in channel, tap)`. -/
def conv1d (W : List (List Row)) (s p d : Nat) (x : Tensor) : Tensor :=
  let ksize := ((W.headD []).headD []).length
  let tim := (x.headD []).length
  let tOut := convOutLenN ksize s p d tim
  W.map (fun wOut =>
    (List.range tOut).map (fun t =>
      ((List.zip wOut x).map (fun pr => convAt pr.1 s d (padRow p pr.2) t)).sum))

namespace MaskConv1d

/-- `MaskConv1d.__call__` (Chainer port lines 100-114): when `use_mask` is
set, zero the input positions at or past the valid length and update the
valid length, then convolve. -/
def call (W : List (List Row)) (ksize s p d : Nat) (useMask : Bool)
    (x : Tensor) (xLen : Int) : Tensor × Int :=
  let x1 := if useMask then maskTensor xLen x else x
  let xLen1 := if useMask then lenUpdateChainer ksize s p d xLen else xLen
  (conv1d W s p d x1, xLen1)

end MaskConv1d

/-- Inference-time batch normalization: a fixed per-channel affine map
(scale and shift fold gamma, beta and the running statistics). -/
def batchNormAffine (scale shift : List Int) (x : Tensor) : Tensor :=
  (List.range x.length).map (fun c =>
    (x.getD c []).map (fun v => scale.getD c 1 * v + shift.getD c 0))

/-- ReLU applied pointwise. -/
def reluT (x : Tensor) : Tensor := x.map (fun r => r.map (fun v => max v 0))

namespace MaskConvBlock1d

/-- `MaskConvBlock1d.__call__` (Chainer port lines 220-228): masked
convolution, then batch normalization, activation and dropout (the dropout
map is the identity in the repository's inference path and is kept as an
explicit parameter). -/
def call (W : List (List Row)) (ksize s p d : Nat)
    (useBn : Bool) (bnScale bnShift : List Int) (activate : Bool)
    (useDropout : Bool) (drop : Tensor → Tensor)
    (x : Tensor) (xLen : Int) : Tensor × Int :=
  let r1 := MaskConv1d.call W ksize s p d true x xLen
  let x2 := if useBn then batchNormAffine bnScale bnShift r1.1 else r1.1
  let x3 := if activate then reluT x2 else x2
  let x4 := if useDropout then drop x3 else x3
  (x4, r1.2)

end MaskConvBlock1d

namespace ChannelShuffle1d

/-- `F.reshape(x, (batch, groups, channels_per_group, seq_len))` on one batch
element (Chainer port line 281): row `(g, j)` of the reshaped tensor is
channel `g * cpg + j` of the input. -/
def reshapeGroups (groups cpg : Nat) (x : Tensor) : List (List Row) :=
  (List.range groups).map (fun g => (List.range cpg).map (fun j => x.getD (g * cpg + j) []))

/-- `F.swapaxes(x, axis1=1, axis2=2)` on the two leading axes of the reshaped
tensor (Chainer port line 282). -/
def swapAxes (m : List (List Row)) : List (List Row) :=
  (List.range (m.headD []).length).map (fun j =>
    (List.range m.length).map (fun g => (m.getD g []).getD j []))

/-- `ChannelShuffle1d.__call__` (Chainer port lines 278-284): reshape the
channel axis into `(groups, channels_per_group)`, swap the two axes, and
flatten back. -/
def call (groups : Nat) (x : Tensor) : Tensor :=
  let cpg := x.length / groups
  (swapAxes (reshapeGroups groups cpg x)).flatten

end ChannelShuffle1d

namespace DwsConvBlock1d

/-- `self.use_channel_shuffle = (groups > 1)` (Chainer port line 343, TF port
line 388). -/
def useChannelShuffle (groups : Nat) : Bool := decide (1 < groups)

/-- The tail of `DwsConvBlock1d.__call__` after the optional channel shuffle
(Chainer port lines 380-385): batch normalization, activation, dropout. -/
def post (useBn : Bool) (bnScale bnShift : List Int) (activate useDropout : Bool)
    (drop : Tensor → Tensor) (z : Tensor) : Tensor :=
  let x4 := if useBn then batchNormAffine bnScale bnShift z else z
  let x5 := if activate then reluT x4 else x4
  if useDropout then drop x5 else x5

/-- `DwsConvBlock1d.__call__` (Chainer port lines 375-386): depthwise masked
convolution, pointwise masked convolution, optional channel shuffle, batch
normalization, activation, dropout.  The two masked convolutions are passed
as functions (each a `MaskConv1d.call` instance). -/
def call (dwConv pwConv : Tensor → Int → Tensor × Int) (groups : Nat)
    (useBn : Bool) (bnScale bnShift : List Int) (activate useDropout : Bool)
    (drop : Tensor → Tensor) (x : Tensor) (xLen : Int) : Tensor × Int :=
  let r1 := dwConv x xLen
  let r2 := pwConv r1.1 r1.2
  let x3 := if useChannelShuffle groups then ChannelShuffle1d.call groups r2.1 else r2.1
  (post useBn bnScale bnShift activate useDropout drop x3, r2.2)

end DwsConvBlock1d

/-- Elementwise addition of two tensors of equal dimensions. -/
def tensorAdd (a b : Tensor) : Tensor :=
  List.zipWith (fun ra rb => List.zipWith (fun u v => u + v) ra rb) a b

/-- `F.stack(tuple(identity), axis=1)` followed by `F.sum(identity, axis=1)`
(Chainer port lines 475-476, TF port lines 532-533): the elementwise sum of
the stacked tensors. -/
def stackSum : List Tensor → Tensor
  | [] => []
  | t :: ts => ts.foldl tensorAdd t

/-- The dual-path length channel: a bare valid length, or in dense-residual
mode the tuple `(x_len, y, y_len)` threaded between units (Chainer port
lines 471-473 and 487). -/
inductive LenCh : Type
  | plain (l : Int)
  | tup (l : Int) (y : List Tensor) (yLen : List Int)

/-- The scalar length component (`x_len` itself, or `x_len[0]` of the
dense-residual tuple). -/
def LenCh.scalar : LenCh → Int
  | .plain l => l
  | .tup l _ _ => l

/-- Modelled from the spec: `DualPathParallelConcurent` is defined in the
repository's `common.py`, which is not among the given sources.  Per the
spec (section 4.3) it applies each accumulated entry's own projection block
to the corresponding accumulated (tensor, length) pair, producing the lists
of projected tensors and updated lengths. -/
def dualPathParallelConcurent (blocks : List (Tensor → Int → Tensor × Int))
    (y : List Tensor) (yLen : List Int) : List Tensor × List Int :=
  let outs := List.zipWith (fun f (pr : Tensor × Int) => f pr.1 pr.2) blocks (y.zip yLen)
  (outs.map Prod.fst, outs.map Prod.snd)

/-- `identity, _ = self.identity_block(y, y_len)` in dense-residual mode
(Chainer port line 474): the list of projected tensors, one per accumulated
stage. -/
def denseProjections (blocks : List (Tensor → Int → Tensor × Int))
    (ys : List Tensor) (yls : List Int) : List Tensor :=
  (dualPathParallelConcurent blocks ys yls).1

/-- Modelled from the spec: `DualPathSequential` is defined in the
repository's `common.py`, which is not among the given sources.  Per the
spec (section 2) it applies its blocks in order while threading the valid
length alongside the tensor. -/
def dualPathSequential (blocks : List (Tensor → Int → Tensor × Int))
    (x : Tensor) (xLen : Int) : Tensor × Int :=
  blocks.foldl (fun pr f => f pr.1 pr.2) (x, xLen)

namespace JasperUnit

/-- `JasperUnit.__call__` in dense-residual mode (Chainer port lines
469-489): unpack the length channel (`(x_len, None, None)` on the first
unit), extend the accumulator with the current pair, project every
accumulated entry through its own block, sum the projections elementwise,
add the sum to the body output, apply activation and dropout, and return the
extended accumulator in the length channel. -/
def callDR (identityBlocks : List (Tensor → Int → Tensor × Int))
    (body : Tensor → Int → Tensor × Int) (useDropout : Bool)
    (drop : Tensor → Tensor) (x : Tensor) (xl : LenCh) : Tensor × LenCh :=
  let l := xl.scalar
  let y0 := match xl with | .plain _ => [] | .tup _ y _ => y
  let yl0 := match xl with | .plain _ => [] | .tup _ _ yl => yl
  let y := y0 ++ [x]
  let yl := yl0 ++ [l]
  let identity := stackSum (dualPathParallelConcurent identityBlocks y yl).1
  let r := body x l
  let out0 := reluT (tensorAdd r.1 identity)
  let out := if useDropout then drop out0 else out0
  (out, .tup r.2 y yl)

/-- `JasperUnit.__call__` without dense residual (Chainer port lines 478 and
480-489): a single projection of the immediately preceding tensor forms the
identity branch. -/
def callNoDR (identityBlock body : Tensor → Int → Tensor × Int)
    (useDropout : Bool) (drop : Tensor → Tensor)
    (x : Tensor) (xLen : Int) : Tensor × Int :=
  let identity := (identityBlock x xLen).1
  let r := body x xLen
  let out0 := reluT (tensorAdd r.1 identity)
  let out := if useDropout then drop out0 else out0
  (out, r.2)

end JasperUnit

/-- The parameters of one dense-residual `JasperUnit` as used by the unit's
forward pass. -/
structure UnitParams where
  identityBlocks : List (Tensor → Int → Tensor × Int)
  body : Tensor → Int → Tensor × Int
  useDropout : Bool
  drop : Tensor → Tensor

/-- Sequential application of dense-residual units, as `self.features` does
between the stem and the final block. -/
def applyUnitsDR (units : List UnitParams) (st : Tensor × LenCh) : Tensor × LenCh :=
  units.foldl (fun pr u => JasperUnit.callDR u.identityBlocks u.body u.useDropout u.drop pr.1 pr.2) st

namespace JasperFinalBlock

/-- `JasperFinalBlock.__call__` (Chainer port lines 545-550): in
dense-residual mode replace the length tuple by its scalar component
`x_len[0]`, then apply the two final convolution blocks (in non-DR mode the
length channel is already `plain` and `scalar` is the identity on it). -/
def call (conv1 conv2 : Tensor → Int → Tensor × Int)
    (x : Tensor) (xl : LenCh) : Tensor × Int :=
  let l := xl.scalar
  let r1 := conv1 x l
  conv2 r1.1 r1.2

end JasperFinalBlock

namespace GetJasper

/-- Python `str.split(sep)` for a one-character separator, on the character
list of the string. -/
def splitOnChar (sep : Char) : List Char → List (List Char)
  | [] => [[]]
  | c :: rest =>
      let r := splitOnChar sep rest
      if c = sep then [] :: r else (c :: r.headD []) :: r.tail

/-- Value of a nonempty all-digit string (the digit core of Python `int()`),
`none` otherwise. -/
def digitsVal (s : List Char) : Option Nat :=
  if s ≠ [] ∧ s.all Char.isDigit then
    some (s.foldl (fun a c => 10 * a + (c.toNat - 48)) 0)
  else none

/-- Python `int(str)` on a literal: an optional sign followed by digits
(whitespace-padded and underscore-grouped forms are not modelled). -/
def pyParseInt : List Char → Option Int
  | '-' :: rest => (digitsVal rest).map (fun n => -(n : Int))
  | '+' :: rest => (digitsVal rest).map (fun n => (n : Int))
  | s => (digitsVal s).map (fun n => (n : Int))

/-- `blocks, repeat = tuple(map(int, version[1].split("x")))` (Chainer port
line 679, TF port line 753): a `ValueError` (here `none`) when a part is not
an integer literal or the number of parts is not exactly two. -/
def parseVersion (vs : List Char) : Option (Int × Int) :=
  match splitOnChar 'x' vs with
  | [a, b] =>
    match pyParseInt a, pyParseInt b with
    | some x, some y => some (x, y)
    | _, _ => none
  | _ => none

/-- The character list of the model-family tag `"jasper"`. -/
def jasperTag : List Char := ['j', 'a', 's', 'p', 'e', 'r']

/-- The character list of the model-family tag `"quartznet"`. -/
def quartznetTag : List Char := ['q', 'u', 'a', 'r', 't', 'z', 'n', 'e', 't']

/-- The per-family tables selected on `model_type` (Chainer port lines
682-692): `none` corresponds to the `ValueError` for an unsupported family. -/
def familyTables (modelType : List Char) : Option (List Nat × List Nat × List ℚ) :=
  if modelType = jasperTag then
    some (jasperChannelsPerStage, jasperKsizesPerStage, jasperDropoutRatesPerStage)
  else if modelType = quartznetTag then
    some (quartznetChannelsPerStage, quartznetKsizesPerStage, quartznetDropoutRatesPerStage)
  else none

/-- The three `ValueError` sites of `get_jasper`: version unpack or parse
failure (line 679), unsupported family (line 692), missing model name when
pretrained weights are requested (line 713). -/
inductive ConfigError : Type
  | badVersion
  | badFamily
  | badModelName
deriving DecidableEq

/-- The configuration assembled by `get_jasper` before the model object is
built. -/
structure JasperCfg where
  channels : List Nat
  ksizes : List Nat
  dropoutRates : List ℚ
  bodyRepeat : Int
  useDw : Bool
  useDr : Bool

/-- `get_jasper` (Chainer port lines 646-721, TF port lines 720-798): parse
the version, select the family tables, expand the stage schedules, and when
pretrained weights are requested check the model name before any weight-file
access.  A successful result carries the model-store file name that would be
fetched (`none` when no weight I/O happens at all); every failure is one of
the three `ValueError` sites. -/
def get_jasper (modelType versionStr : List Char) (useDw useDr : Bool)
    (modelName : Option (List Char)) (pretrained : Bool) :
    Except ConfigError (JasperCfg × Option (List Char)) :=
  match parseVersion versionStr with
  | none => .error .badVersion
  | some (blocks, rep) =>
    let mainStageRepeat := pyFloorDiv blocks 5
    match familyTables modelType with
    | none => .error .badFamily
    | some tbls =>
      let r := mainStageRepeat.toNat
      let cfg : JasperCfg :=
        ⟨expandStages tbls.1 r, expandStages tbls.2.1 r, expandStages tbls.2.2 r,
          rep, useDw, useDr⟩
      if pretrained then
        match modelName with
        | none => .error .badModelName
        | some nm => if nm = [] then .error .badModelName else .ok (cfg, some nm)
      else .ok (cfg, none)

end GetJasper

/-- Kernel size, stride, padding and dilation of one convolution on the main
path of the network. -/
structure ConvDesc where
  k : Nat
  s : Nat
  p : Nat
  d : Nat

/-- Physical output time length of one main-path convolution. -/
def convDescOut (cd : ConvDesc) (t : Nat) : Nat := convOutLenN cd.k cd.s cd.p cd.d t

/-- Main-path convolutions of one convolution block: a plain block is one
convolution; a depthwise-separable block is the depthwise convolution
followed by the pointwise `mask_conv1d1` (kernel 1, stride 1, pad 0,
dilation 1; Chainer port lines 346-359). -/
def blockDescs (useDw : Bool) (k s p d : Nat) : List ConvDesc :=
  if useDw then [⟨k, s, p, d⟩, ⟨1, 1, 0, 1⟩] else [⟨k, s, p, d⟩]

/-- The main-path convolution descriptors of the assembled `Jasper` network
(Chainer port lines 598-638): the stem block (`stride=2`, `pad=ksize//2`),
`repeat` body blocks per unit (`stride=1`, `pad=ksize//2`) for each unit
kernel size in `ksizes[1:-2]`, the final block's dilated convolution
(`pad=2*ksize//2-1`, `dilate=2`) and 1-kernel convolution, and the output
`conv1d1` projection.  Identity branches do not touch the main-path length:
`x, x_len = self.body(x, x_len)` (line 480). -/
def jasperNetDescs (cfg : GetJasper.JasperCfg) : List ConvDesc :=
  let ks := cfg.ksizes
  let k0 := ks.headD 1
  let stem := blockDescs cfg.useDw k0 2 (k0 / 2) 1
  let unitKs := (ks.drop 1).dropLast.dropLast
  let unitDescs := unitKs.flatMap (fun k =>
    (List.replicate cfg.bodyRepeat.toNat (blockDescs cfg.useDw k 1 (k / 2) 1)).flatten)
  let k6 := ks.getD (ks.length - 2) 1
  let k7 := ks.getD (ks.length - 1) 1
  let finalDescs := blockDescs cfg.useDw k6 1 (2 * k6 / 2 - 1) 2 ++
    blockDescs false k7 1 (k7 / 2) 1
  stem ++ unitDescs ++ finalDescs ++ [⟨1, 1, 0, 1⟩]

/-- Physical output time length of the whole network on a physical input
time length `tim`. -/
def jasperPhysTime (cfg : GetJasper.JasperCfg) (tim : Nat) : Nat :=
  (jasperNetDescs cfg).foldl (fun t cd => convDescOut cd t) tim

/-- `getD` through `map`, for an in-range index. -/
theorem getD_map_of_lt {α β : Type} (f : α → β) (l : List α) (i : Nat)
    (h : i < l.length) (d : α) (d' : β) : (l.map f).getD i d' = f (l.getD i d) := by
  simp [List.getD_eq_getElem?_getD, List.getElem?_map, List.getElem?_eq_getElem h]

/-- `getD` of a mapped range, for an in-range index. -/
theorem getD_range_map {β : Type} (f : Nat → β) (n i : Nat) (h : i < n) (d : β) :
    ((List.range n).map f).getD i d = f i := by
  simp [List.getD_eq_getElem?_getD, List.getElem?_map, List.getElem?_range h]

/-- The channel row selected by `getD` has the common row length. -/
theorem row_length_of_hasDims (x : Tensor) (chn tim : Nat) (hd : HasDims x chn tim)
    (c : Nat) (hc : c < chn) : (x.getD c []).length = tim := by
  obtain ⟨hlen, hrows⟩ := hd
  have hc' : c < x.length := by omega
  rw [List.getD_eq_getElem?_getD, List.getElem?_eq_getElem hc']
  exact hrows _ (List.getElem_mem hc')

/-- Pointwise description of the masking step. -/
theorem entry_maskTensor (x : Tensor) (L : Int) (chn tim : Nat)
    (hd : HasDims x chn tim) (c t : Nat) (hc : c < chn) (ht : t < tim) :
    entry (maskTensor L x) c t = if (t : Int) < L then entry x c t else 0 := by
  have hc' : c < x.length := by rw [hd.1]; exact hc
  have hrow : (x.getD c []).length = tim := row_length_of_hasDims x chn tim hd c hc
  unfold entry maskTensor maskRow
  rw [getD_map_of_lt _ _ _ hc' ([] : Row), getD_range_map _ _ _ (by omega)]
  split <;> simp

/-- `getD` through `zipWith`, for an index in range of both lists. -/
theorem getD_zipWith_of_lt {α β γ : Type} (f : α → β → γ) (as : List α) (bs : List β)
    (i : Nat) (ha : i < as.length) (hb : i < bs.length) (da : α) (db : β) (dc : γ) :
    (List.zipWith f as bs).getD i dc = f (as.getD i da) (bs.getD i db) := by
  simp [List.getD_eq_getElem?_getD, List.getElem?_zipWith,
    List.getElem?_eq_getElem ha, List.getElem?_eq_getElem hb]

/-- `getD` of a flattened list whose rows all have length `n`. -/
theorem getD_flatten_uniform {α : Type} (l : List (List α)) (n : Nat)
    (hrows : ∀ r ∈ l, r.length = n) (q i : Nat) (hq : q < l.length) (hi : i < n) (d : α) :
    l.flatten.getD (q * n + i) d = (l.getD q []).getD i d := by
  induction l generalizing q with
  | nil => simp at hq
  | cons a rest ih =>
    have ha : a.length = n := hrows a (by simp)
    cases q with
    | zero =>
      simp only [List.flatten_cons, Nat.zero_mul, Nat.zero_add]
      rw [List.getD_eq_getElem?_getD, List.getElem?_append_left (by omega),
        ← List.getD_eq_getElem?_getD]
      simp [List.getD_cons_zero]
    | succ q =>
      have hidx : (q + 1) * n + i = a.length + (q * n + i) := by rw [ha]; ring
      simp only [List.flatten_cons]
      rw [List.getD_eq_getElem?_getD, hidx, List.getElem?_append_right (by omega)]
      have : a.length + (q * n + i) - a.length = q * n + i := by omega
      rw [this, ← List.getD_eq_getElem?_getD, List.getD_cons_succ]
      exact ih (fun r hr => hrows r (by simp [hr])) q (by simpa using hq)

/-- Dimensions of an elementwise tensor sum. -/
theorem hasDims_tensorAdd (a b : Tensor) (chn tim : Nat)
    (hda : HasDims a chn tim) (hdb : HasDims b chn tim) :
    HasDims (tensorAdd a b) chn tim := by
  obtain ⟨hal, har⟩ := hda
  obtain ⟨hbl, hbr⟩ := hdb
  constructor
  · simp [tensorAdd, hal, hbl]
  · intro r hr
    simp only [tensorAdd] at hr
    rw [List.mem_iff_getElem] at hr
    obtain ⟨i, hilen, rfl⟩ := hr
    simp only [List.getElem_zipWith]
    rw [List.length_zipWith] at hilen
    rw [List.length_zipWith, har _ (List.getElem_mem _), hbr _ (List.getElem_mem _)]
    simp

/-- Pointwise value of an elementwise tensor sum. -/
theorem entry_tensorAdd (a b : Tensor) (chn tim : Nat)
    (hda : HasDims a chn tim) (hdb : HasDims b chn tim)
    (c t : Nat) (hc : c < chn) (ht : t < tim) :
    entry (tensorAdd a b) c t = entry a c t + entry b c t := by
  have hca : c < a.length := by rw [hda.1]; exact hc
  have hcb : c < b.length := by rw [hdb.1]; exact hc
  have hra : (a.getD c []).length = tim := row_length_of_hasDims a chn tim hda c hc
  have hrb : (b.getD c []).length = tim := row_length_of_hasDims b chn tim hdb c hc
  unfold entry tensorAdd
  rw [getD_zipWith_of_lt _ _ _ _ hca hcb ([] : Row) ([] : Row)]
  rw [getD_zipWith_of_lt _ _ _ _ (by omega) (by omega) (0 : Int) (0 : Int)]

/-- C1: for every masked 1D convolution with `use_mask` enabled, kernel `K`,
positive stride `S`, dilation `D`, padding `P` and input valid length `L`,
the valid length returned alongside the convolved tensor equals
`floor((L + 2*P - D*(K-1) - 1) / S) + 1`, and the Chainer and TensorFlow
ports compute identical updates. -/
theorem claim1_length_update_is_floor_formula (K P D L S : Int) (hS : 0 < S) :
    MaskConv1d.lenUpdateChainer K S P D L =
      ⌊((L + 2 * P - D * (K - 1) - 1 : Int) : ℚ) / ((S : Int) : ℚ)⌋ + 1 ∧
    MaskConv1d.lenUpdateTF K S P D L = MaskConv1d.lenUpdateChainer K S P D L := by
  constructor
  · unfold MaskConv1d.lenUpdateChainer pyFloorDiv
    obtain ⟨n, rfl⟩ := Int.eq_ofNat_of_zero_le hS.le
    rw [Int.fdiv_eq_ediv _ hS.le]
    have h := Rat.floor_intCast_div_natCast (L + 2 * P - D * (K - 1) - 1) n
    rw [← h]
    push_cast
    ring_nf
  · rfl

/-- Witness for C1 at a concrete stem-like configuration. -/
theorem claim1_witness :
    (0 : Int) < 2 ∧
    (MaskConv1d.lenUpdateChainer 11 2 5 1 100 =
        ⌊((100 + 2 * 5 - 1 * (11 - 1) - 1 : Int) : ℚ) / (((2 : Int) : Int) : ℚ)⌋ + 1 ∧
      MaskConv1d.lenUpdateTF 11 2 5 1 100 = MaskConv1d.lenUpdateChainer 11 2 5 1 100) :=
  ⟨by norm_num, claim1_length_update_is_floor_formula 11 5 1 100 2 (by norm_num)⟩

/-- C9: a masked 1x1 convolution with stride 1, zero padding and dilation 1
(the configuration of `mask_conv1d1` used by every identity projection and
pointwise convolution) returns the input valid length unchanged, in both
ports. -/
theorem claim9_length_identity_for_pointwise (L : Int) :
    MaskConv1d.lenUpdateChainer 1 1 0 1 L = L ∧
    MaskConv1d.lenUpdateTF 1 1 0 1 L = L := by
  unfold MaskConv1d.lenUpdateChainer MaskConv1d.lenUpdateTF pyFloorDiv
  rw [Int.fdiv_eq_ediv _ (by norm_num)]
  omega

namespace GetJasper

/-- Unfolding of the schedule expansion on an arbitrary 8-entry table: the
stem entry and the two final entries appear once, the five middle entries
are each replicated `r` times. -/
theorem expandStages_eq_concat {α : Type} (a b c d e f g h : α) (r : Nat) :
    expandStages [a, b, c, d, e, f, g, h] r =
      [a] ++ List.replicate r b ++ List.replicate r c ++ List.replicate r d ++
        List.replicate r e ++ List.replicate r f ++ [g, h] := by
  simp [expandStages, stageRepeat, List.zip, List.flatten]

/-- The expanded schedule of an 8-entry table has length `5 * r + 3`. -/
theorem expandStages_length {α : Type} (a b c d e f g h : α) (r : Nat) :
    (expandStages [a, b, c, d, e, f, g, h] r).length = 5 * r + 3 := by
  rw [expandStages_eq_concat]
  simp [List.length_replicate]
  omega

/-- Every element of the expanded schedule comes from the table. -/
theorem mem_of_mem_expandStages {α : Type} (table : List α) (r : Nat) (x : α)
    (hx : x ∈ expandStages table r) : x ∈ table := by
  simp only [expandStages, List.mem_flatten, List.mem_map] at hx
  obtain ⟨l, ⟨p, hp, rfl⟩, hxl⟩ := hx
  have := List.eq_of_mem_replicate hxl
  subst this
  exact (List.of_mem_zip hp).1

/-- The expansion of an 8-entry table, phrased by table sections: the stem
entry (`take 1`) once, the five middle entries each `r` times, the final two
entries (`drop 6`) once. -/
theorem expandStages_sections {α : Type} (table : List α) (h8 : table.length = 8) (r : Nat) :
    (expandStages table r).length = 5 * r + 3 ∧
    expandStages table r =
      table.take 1 ++ ((table.drop 1).take 5).flatMap (List.replicate r) ++ table.drop 6 := by
  match table, h8 with
  | [a, b, c, d, e, f, g, h], _ =>
    refine ⟨expandStages_length a b c d e f g h r, ?_⟩
    rw [expandStages_eq_concat]
    simp [List.flatMap]

end GetJasper

/-- C2 counterexample: for the valid version `"10x4"` (blocks = 10, a
multiple of 5) of the `"jasper"` family, the generated channels schedule has
length 13, not 8. -/
theorem claim2_counterexample :
    GetJasper.parseVersion ['1', '0', 'x', '4'] = some (10, 4) ∧ (5 : Int) ∣ 10 ∧
    (GetJasper.get_jasper GetJasper.jasperTag ['1', '0', 'x', '4'] false false none false).map
      (fun pr => pr.1.channels.length) = .ok 13 ∧ (13 : Nat) ≠ 8 := by
  refine ⟨by decide, by decide, ?_, by decide⟩
  rfl

/-- C2 corrected: for blocks a positive multiple of 5, `main_stage_repeat`
is `blocks / 5 = m` and each generated schedule (channels, kernel sizes,
dropout rates) has length `5 * m + 3` (8 exactly when blocks = 5), in which
the five middle entries (indices 1..5) of the fixed 8-entry per-family table
are each replicated `m` times while the first (stem) entry and the last two
(final block) entries appear exactly once. -/
theorem claim2_schedule_structure (mt : List Char) (cs ks : List Nat) (ds : List ℚ)
    (hf : GetJasper.familyTables mt = some (cs, ks, ds)) (m : Nat) (hm : 0 < m) :
    (pyFloorDiv ((5 * m : Nat) : Int) 5).toNat = m ∧
    ((GetJasper.expandStages cs m).length = 5 * m + 3 ∧
      (GetJasper.expandStages ks m).length = 5 * m + 3 ∧
      (GetJasper.expandStages ds m).length = 5 * m + 3) ∧
    (GetJasper.expandStages cs m =
        cs.take 1 ++ ((cs.drop 1).take 5).flatMap (List.replicate m) ++ cs.drop 6 ∧
      GetJasper.expandStages ks m =
        ks.take 1 ++ ((ks.drop 1).take 5).flatMap (List.replicate m) ++ ks.drop 6 ∧
      GetJasper.expandStages ds m =
        ds.take 1 ++ ((ds.drop 1).take 5).flatMap (List.replicate m) ++ ds.drop 6) := by
  have hdiv : (pyFloorDiv ((5 * m : Nat) : Int) 5).toNat = m := by
    unfold pyFloorDiv
    rw [Int.fdiv_eq_ediv _ (by positivity)]
    omega
  unfold GetJasper.familyTables at hf
  split at hf
  · obtain ⟨rfl, rfl, rfl⟩ : cs = GetJasper.jasperChannelsPerStage ∧
        ks = GetJasper.jasperKsizesPerStage ∧ ds = GetJasper.jasperDropoutRatesPerStage := by
      injection hf with h
      exact ⟨congrArg (fun p => p.1) h.symm, congrArg (fun p => p.2.1) h.symm,
        congrArg (fun p => p.2.2) h.symm⟩
    have h1 := GetJasper.expandStages_sections GetJasper.jasperChannelsPerStage (by rfl) m
    have h2 := GetJasper.expandStages_sections GetJasper.jasperKsizesPerStage (by rfl) m
    have h3 := GetJasper.expandStages_sections GetJasper.jasperDropoutRatesPerStage (by rfl) m
    exact ⟨hdiv, ⟨h1.1, h2.1, h3.1⟩, h1.2, h2.2, h3.2⟩
  · split at hf
    · obtain ⟨rfl, rfl, rfl⟩ : cs = GetJasper.quartznetChannelsPerStage ∧
          ks = GetJasper.quartznetKsizesPerStage ∧ ds = GetJasper.quartznetDropoutRatesPerStage := by
        injection hf with h
        exact ⟨congrArg (fun p => p.1) h.symm, congrArg (fun p => p.2.1) h.symm,
          congrArg (fun p => p.2.2) h.symm⟩
      have h1 := GetJasper.expandStages_sections GetJasper.quartznetChannelsPerStage (by rfl) m
      have h2 := GetJasper.expandStages_sections GetJasper.quartznetKsizesPerStage (by rfl) m
      have h3 := GetJasper.expandStages_sections GetJasper.quartznetDropoutRatesPerStage (by rfl) m
      exact ⟨hdiv, ⟨h1.1, h2.1, h3.1⟩, h1.2, h2.2, h3.2⟩
    · exact absurd hf (by simp)

/-- Witness for the corrected C2 at the `"jasper"` family with `m = 2`
(blocks = 10). -/
theorem claim2_witness :
    (GetJasper.familyTables GetJasper.jasperTag =
        some (GetJasper.jasperChannelsPerStage, GetJasper.jasperKsizesPerStage,
          GetJasper.jasperDropoutRatesPerStage) ∧ 0 < 2) ∧
    ((pyFloorDiv ((5 * 2 : Nat) : Int) 5).toNat = 2 ∧
      ((GetJasper.expandStages GetJasper.jasperChannelsPerStage 2).length = 5 * 2 + 3 ∧
        (GetJasper.expandStages GetJasper.jasperKsizesPerStage 2).length = 5 * 2 + 3 ∧
        (GetJasper.expandStages GetJasper.jasperDropoutRatesPerStage 2).length = 5 * 2 + 3) ∧
      (GetJasper.expandStages GetJasper.jasperChannelsPerStage 2 =
          GetJasper.jasperChannelsPerStage.take 1 ++
            ((GetJasper.jasperChannelsPerStage.drop 1).take 5).flatMap (List.replicate 2) ++
            GetJasper.jasperChannelsPerStage.drop 6 ∧
        GetJasper.expandStages GetJasper.jasperKsizesPerStage 2 =
          GetJasper.jasperKsizesPerStage.take 1 ++
            ((GetJasper.jasperKsizesPerStage.drop 1).take 5).flatMap (List.replicate 2) ++
            GetJasper.jasperKsizesPerStage.drop 6 ∧
        GetJasper.expandStages GetJasper.jasperDropoutRatesPerStage 2 =
          GetJasper.jasperDropoutRatesPerStage.take 1 ++
            ((GetJasper.jasperDropoutRatesPerStage.drop 1).take 5).flatMap (List.replicate 2) ++
            GetJasper.jasperDropoutRatesPerStage.drop 6)) :=
  ⟨⟨by rfl, by decide⟩,
    claim2_schedule_structure GetJasper.jasperTag _ _ _ (by rfl) 2 (by decide)⟩

/-- C7: `get_jasper` fails (with a `ValueError`) exactly when the version
string does not parse, the model family is unsupported, or pretrained
weights are requested with a missing or empty model name; the unsupported
family condition is exactly being neither `"jasper"` nor `"quartznet"`; and
a weight file is requested from the model store only on the successful
pretrained path, so every error is raised before any weight-file I/O. -/
theorem claim7_config_errors (mt vs : List Char) (dw dr : Bool)
    (mn : Option (List Char)) (pt : Bool) :
    ((∃ e, GetJasper.get_jasper mt vs dw dr mn pt = .error e) ↔
      (GetJasper.parseVersion vs = none ∨ GetJasper.familyTables mt = none ∨
        (pt = true ∧ (mn = none ∨ mn = some [])))) ∧
    (GetJasper.familyTables mt = none ↔
      (mt ≠ GetJasper.jasperTag ∧ mt ≠ GetJasper.quartznetTag)) ∧
    (∀ cfg fw, GetJasper.get_jasper mt vs dw dr mn pt = .ok (cfg, fw) →
      (fw.isSome = true ↔ pt = true)) := by
  refine ⟨?_, ?_, ?_⟩
  · cases hpv : GetJasper.parseVersion vs with
    | none => simp [GetJasper.get_jasper, hpv]
    | some br =>
      obtain ⟨b, rep⟩ := br
      cases hft : GetJasper.familyTables mt with
      | none => simp [GetJasper.get_jasper, hpv, hft]
      | some tbls =>
        cases pt with
        | false => simp [GetJasper.get_jasper, hpv, hft]
        | true =>
          cases mn with
          | none => simp [GetJasper.get_jasper, hpv, hft]
          | some nm =>
            by_cases hnm : nm = [] <;> simp [GetJasper.get_jasper, hpv, hft, hnm]
  · by_cases h1 : mt = GetJasper.jasperTag
    · simp [GetJasper.familyTables, h1]
    · by_cases h2 : mt = GetJasper.quartznetTag
      · subst h2
        simp [GetJasper.familyTables, h1,
          show GetJasper.quartznetTag ≠ GetJasper.jasperTag by decide]
      · simp [GetJasper.familyTables, h1, h2]
  · intro cfg fw hok
    cases hpv : GetJasper.parseVersion vs with
    | none => simp [GetJasper.get_jasper, hpv] at hok
    | some br =>
      obtain ⟨b, rep⟩ := br
      cases hft : GetJasper.familyTables mt with
      | none => simp [GetJasper.get_jasper, hpv, hft] at hok
      | some tbls =>
        cases pt with
        | false =>
          simp [GetJasper.get_jasper, hpv, hft] at hok
          simp [← hok.2]
        | true =>
          cases mn with
          | none => simp [GetJasper.get_jasper, hpv, hft] at hok
          | some nm =>
            by_cases hnm : nm = []
            · simp [GetJasper.get_jasper, hpv, hft, hnm] at hok
            · simp [GetJasper.get_jasper, hpv, hft, hnm] at hok
              simp [← hok.2]

/-- Witness for C7: a malformed version errors, a well-formed non-pretrained
construction does not. -/
theorem claim7_witness :
    (∃ e, GetJasper.get_jasper GetJasper.jasperTag ['5'] false false none false = .error e) ∧
    ¬(∃ e, GetJasper.get_jasper GetJasper.jasperTag ['5', 'x', '3'] false false none false =
        .error e) := by
  constructor
  · exact (claim7_config_errors GetJasper.jasperTag ['5'] false false none false).1.mpr
      (Or.inl (by decide))
  · intro h
    have hcases :=
      (claim7_config_errors GetJasper.jasperTag ['5', 'x', '3'] false false none false).1.mp h
    rcases hcases with hc | hc | hc
    · exact absurd hc (by decide)
    · exact absurd hc (by decide)
    · exact absurd hc.1 (by decide)

/-- C4: a masked convolution convolves exactly the masked input, in which
every position at time index at or past the valid length `L` is zero and
every position before `L` is unchanged. -/
theorem claim4_mask_before_conv (W : List (List Row)) (ksize s p d : Nat)
    (x : Tensor) (L : Int) (chn tim : Nat) (hd : HasDims x chn tim) :
    MaskConv1d.call W ksize s p d true x L =
      (conv1d W s p d (maskTensor L x), MaskConv1d.lenUpdateChainer ksize s p d L) ∧
    ∀ c t, c < chn → t < tim →
      (L ≤ (t : Int) → entry (maskTensor L x) c t = 0) ∧
      ((t : Int) < L → entry (maskTensor L x) c t = entry x c t) := by
  refine ⟨rfl, fun c t hc ht => ?_⟩
  have h := entry_maskTensor x L chn tim hd c t hc ht
  constructor
  · intro hL
    rw [h, if_neg (by omega)]
  · intro hL
    rw [h, if_pos hL]

/-- Witness for C4 on a concrete 1-channel input of physical length 3 with
valid length 2. -/
theorem claim4_witness :
    HasDims [[1, 2, 3]] 1 3 ∧
    (MaskConv1d.call [[[1]]] 1 1 0 1 true [[1, 2, 3]] 2 =
        (conv1d [[[1]]] 1 0 1 (maskTensor 2 [[1, 2, 3]]),
          MaskConv1d.lenUpdateChainer 1 1 0 1 2) ∧
      ∀ (c t : Nat), c < 1 → t < 3 →
        ((2 : Int) ≤ (t : Int) → entry (maskTensor 2 [[1, 2, 3]]) c t = 0) ∧
        ((t : Int) < 2 → entry (maskTensor 2 [[1, 2, 3]]) c t = entry [[1, 2, 3]] c t)) :=
  ⟨by decide, claim4_mask_before_conv [[[1]]] 1 1 0 1 [[1, 2, 3]] 2 1 3 (by decide)⟩

/-- C5 counterexample: a stem-style `MaskConvBlock1d` (stride 2, pad
`ksize//2`, batch norm, ReLU) on a 1-channel input of physical time length 4
with valid length 2 < 4 produces updated valid length 1, yet the output at
time index 1 ≥ 1 is 5, not zero: the stem output is not masked. -/
theorem claim5_counterexample :
    MaskConvBlock1d.call [[[1, 1, 1]]] 3 2 1 1 true [1] [0] true false id [[0, 5, 7, 7]] 2 =
      ([[5, 5]], 1) ∧
    (2 : Int) < 4 ∧ (1 : Int) ≤ 1 ∧ entry [[5, 5]] 0 1 ≠ 0 := by
  refine ⟨by rfl, by decide, by decide, by decide⟩

/-- C5 corrected: the stem-block output itself may be nonzero at time
indices at or past the updated valid length `L'`; those positions are zeroed
by the next masked convolution's masking step before its convolution
consumes them (and positions before `L'` are consumed unchanged). -/
theorem claim5_next_layer_masks_stem_output (W : List (List Row)) (ksize s p d : Nat)
    (useBn : Bool) (bnScale bnShift : List Int) (activate useDropout : Bool)
    (drop : Tensor → Tensor) (x : Tensor) (L : Int) (y : Tensor) (L2 : Int)
    (_hstem : MaskConvBlock1d.call W ksize s p d useBn bnScale bnShift activate useDropout drop
        x L = (y, L2))
    (chn tim : Nat) (hd : HasDims y chn tim)
    (W2 : List (List Row)) (k2 s2 p2 d2 : Nat) :
    MaskConv1d.call W2 k2 s2 p2 d2 true y L2 =
      (conv1d W2 s2 p2 d2 (maskTensor L2 y), MaskConv1d.lenUpdateChainer k2 s2 p2 d2 L2) ∧
    ∀ c t, c < chn → t < tim →
      (L2 ≤ (t : Int) → entry (maskTensor L2 y) c t = 0) ∧
      ((t : Int) < L2 → entry (maskTensor L2 y) c t = entry y c t) := by
  refine ⟨rfl, fun c t hc ht => ?_⟩
  have h := entry_maskTensor y L2 chn tim hd c t hc ht
  constructor
  · intro hL
    rw [h, if_neg (by omega)]
  · intro hL
    rw [h, if_pos hL]

/-- Witness for the corrected C5 on the counterexample's stem block. -/
theorem claim5_witness :
    (MaskConvBlock1d.call [[[1, 1, 1]]] 3 2 1 1 true [1] [0] true false id [[0, 5, 7, 7]] 2 =
        ([[5, 5]], 1) ∧ HasDims [[5, 5]] 1 2) ∧
    (MaskConv1d.call [[[1]]] 1 1 0 1 true [[5, 5]] 1 =
        (conv1d [[[1]]] 1 0 1 (maskTensor 1 [[5, 5]]),
          MaskConv1d.lenUpdateChainer 1 1 0 1 1) ∧
      ∀ (c t : Nat), c < 1 → t < 2 →
        ((1 : Int) ≤ (t : Int) → entry (maskTensor 1 [[5, 5]]) c t = 0) ∧
        ((t : Int) < 1 → entry (maskTensor 1 [[5, 5]]) c t = entry [[5, 5]] c t)) :=
  ⟨⟨by rfl, by decide⟩,
    claim5_next_layer_masks_stem_output [[[1, 1, 1]]] 3 2 1 1 true [1] [0] true false id
      [[0, 5, 7, 7]] 2 [[5, 5]] 1 (by rfl) 1 2 (by decide) [[[1]]] 1 1 0 1⟩

/-- Entry of a left fold of elementwise additions: the running entry plus
the sum of the entries of the summands. -/
theorem foldl_tensorAdd_entry (ts : List Tensor) (acc : Tensor) (chn tim : Nat)
    (hacc : HasDims acc chn tim) (hts : ∀ x ∈ ts, HasDims x chn tim)
    (c t : Nat) (hc : c < chn) (ht : t < tim) :
    HasDims (ts.foldl tensorAdd acc) chn tim ∧
    entry (ts.foldl tensorAdd acc) c t =
      entry acc c t + (ts.map (fun x => entry x c t)).sum := by
  induction ts generalizing acc with
  | nil => simpa using hacc
  | cons a rest ih =>
    have hda := hts a (by simp)
    have h1 := hasDims_tensorAdd acc a chn tim hacc hda
    have ih2 := ih (tensorAdd acc a) h1 (fun z hz => hts z (by simp [hz]))
    refine ⟨ih2.1, ?_⟩
    rw [List.foldl_cons, ih2.2, entry_tensorAdd acc a chn tim hacc hda c t hc ht]
    simp [List.map_cons, List.sum_cons]
    ring

/-- The stacked-and-summed identity branch is the elementwise sum of its
summands. -/
theorem entry_stackSum (ts : List Tensor) (chn tim : Nat)
    (hts : ∀ x ∈ ts, HasDims x chn tim) (hne : ts ≠ [])
    (c t : Nat) (hc : c < chn) (ht : t < tim) :
    entry (stackSum ts) c t = (ts.map (fun x => entry x c t)).sum := by
  cases ts with
  | nil => exact absurd rfl hne
  | cons a rest =>
    have h := foldl_tensorAdd_entry rest a chn tim (hts a (by simp))
      (fun z hz => hts z (by simp [hz])) c t hc ht
    simp only [stackSum, h.2, List.map_cons, List.sum_cons]

/-- C3: in dense-residual mode a `JasperUnit` first appends the current
(tensor, length) pair to the accumulator; its identity branch is the sum of
one independent projection per accumulated entry, each computed from a
distinct earlier stage's output, and pointwise this sum is the elementwise
sum of the projected tensors; the sum is added to the body output, then
activation and dropout are applied and the extended accumulator is returned.
Without dense residual, the identity branch is the single projection of the
immediately preceding tensor. -/
theorem claim3_dense_residual_identity
    (blocks : List (Tensor → Int → Tensor × Int))
    (body : Tensor → Int → Tensor × Int) (useDropout : Bool) (drop : Tensor → Tensor)
    (x : Tensor) (l : Int) (y0 : List Tensor) (yl0 : List Int) (xl : LenCh)
    (hxl : xl = LenCh.tup l y0 yl0 ∨ (xl = LenCh.plain l ∧ y0 = [] ∧ yl0 = []))
    (chn tim : Nat)
    (hproj : ∀ pz ∈ denseProjections blocks (y0 ++ [x]) (yl0 ++ [l]), HasDims pz chn tim)
    (hlen : blocks.length = y0.length + 1) (hyl : yl0.length = y0.length) :
    JasperUnit.callDR blocks body useDropout drop x xl =
      (if useDropout then
          drop (reluT (tensorAdd (body x l).1
            (stackSum (denseProjections blocks (y0 ++ [x]) (yl0 ++ [l])))))
        else reluT (tensorAdd (body x l).1
          (stackSum (denseProjections blocks (y0 ++ [x]) (yl0 ++ [l])))),
        LenCh.tup (body x l).2 (y0 ++ [x]) (yl0 ++ [l])) ∧
    denseProjections blocks (y0 ++ [x]) (yl0 ++ [l]) =
      List.zipWith (fun f (pr : Tensor × Int) => (f pr.1 pr.2).1) blocks
        ((y0 ++ [x]).zip (yl0 ++ [l])) ∧
    (denseProjections blocks (y0 ++ [x]) (yl0 ++ [l])).length = y0.length + 1 ∧
    (∀ (c t : Nat), c < chn → t < tim →
      entry (stackSum (denseProjections blocks (y0 ++ [x]) (yl0 ++ [l]))) c t =
        ((denseProjections blocks (y0 ++ [x]) (yl0 ++ [l])).map (fun pz => entry pz c t)).sum) ∧
    (∀ (idB : Tensor → Int → Tensor × Int) (x2 : Tensor) (l2 : Int),
      JasperUnit.callNoDR idB body useDropout drop x2 l2 =
        (if useDropout then drop (reluT (tensorAdd (body x2 l2).1 (idB x2 l2).1))
          else reluT (tensorAdd (body x2 l2).1 (idB x2 l2).1), (body x2 l2).2)) := by
  have hplen : (denseProjections blocks (y0 ++ [x]) (yl0 ++ [l])).length = y0.length + 1 := by
    simp [denseProjections, dualPathParallelConcurent, List.length_zipWith, List.length_zip,
      hlen, hyl]
  refine ⟨?_, ?_, hplen, ?_, ?_⟩
  · rcases hxl with rfl | ⟨rfl, rfl, rfl⟩ <;> rfl
  · simp [denseProjections, dualPathParallelConcurent, List.map_zipWith]
  · intro c t hc ht
    exact entry_stackSum _ chn tim hproj (by intro h; rw [h] at hplen; simp at hplen) c t hc ht
  · intro idB x2 l2
    rfl

/-- Witness for C3 with two accumulated stages (one prior entry plus the
current tensor) on concrete 1-by-2 tensors. -/
theorem claim3_witness :
    ((LenCh.tup 3 [[[4, 5]]] [7] = LenCh.tup 3 [[[4, 5]]] [7] ∨
        (LenCh.tup 3 [[[4, 5]]] [7] = LenCh.plain 3 ∧ [[[4, 5]]] = ([] : List Tensor) ∧
          [7] = ([] : List Int))) ∧
      (∀ pz ∈ denseProjections [fun z _ => (z, 0), fun z _ => (tensorAdd z z, 0)]
          ([[[4, 5]]] ++ [[[1, 2]]]) ([7] ++ [3]), HasDims pz 1 2) ∧
      ([fun z _ => (z, 0), fun z (_ : Int) => (tensorAdd z z, 0)] :
        List (Tensor → Int → Tensor × Int)).length = [[[4, 5]]].length + 1 ∧
      [(7 : Int)].length = [[[4, 5]]].length) ∧
    (∀ (c t : Nat), c < 1 → t < 2 →
      entry (stackSum (denseProjections [fun z _ => (z, 0), fun z _ => (tensorAdd z z, 0)]
          ([[[4, 5]]] ++ [[[1, 2]]]) ([7] ++ [3]))) c t =
        ((denseProjections [fun z _ => (z, 0), fun z _ => (tensorAdd z z, 0)]
            ([[[4, 5]]] ++ [[[1, 2]]]) ([7] ++ [3])).map (fun pz => entry pz c t)).sum) :=
  ⟨⟨Or.inl rfl, by decide, by decide, by decide⟩,
    (claim3_dense_residual_identity
      [fun z _ => (z, 0), fun z _ => (tensorAdd z z, 0)]
      (fun z l2 => (z, l2)) false id [[1, 2]] 3 [[[4, 5]]] [7]
      (LenCh.tup 3 [[[4, 5]]] [7]) (Or.inl rfl) 1 2 (by decide) (by decide)
      (by decide)).2.2.2.1⟩

/-- Folding dense-residual units from a tuple state extends both accumulator
lists by exactly one entry per unit. -/
theorem applyUnitsDR_tup (units : List UnitParams) (x : Tensor) (l : Int)
    (y : List Tensor) (yl : List Int) :
    ∃ l2 y2 yl2, (applyUnitsDR units (x, LenCh.tup l y yl)).2 = LenCh.tup l2 y2 yl2 ∧
      y2.length = y.length + units.length ∧ yl2.length = yl.length + units.length := by
  induction units generalizing x l y yl with
  | nil => exact ⟨l, y, yl, rfl, by simp, by simp⟩
  | cons u rest ih =>
    have hpair : JasperUnit.callDR u.identityBlocks u.body u.useDropout u.drop x
        (LenCh.tup l y yl) =
        ((JasperUnit.callDR u.identityBlocks u.body u.useDropout u.drop x
            (LenCh.tup l y yl)).1,
          LenCh.tup (u.body x l).2 (y ++ [x]) (yl ++ [l])) := rfl
    obtain ⟨l2, y2, yl2, h1, h2, h3⟩ :=
      ih (JasperUnit.callDR u.identityBlocks u.body u.useDropout u.drop x
        (LenCh.tup l y yl)).1 (u.body x l).2 (y ++ [x]) (yl ++ [l])
    refine ⟨l2, y2, yl2, ?_, by simp at h2 ⊢; omega, by simp at h3 ⊢; omega⟩
    simp only [applyUnitsDR, List.foldl_cons] at h1 ⊢
    rw [hpair]
    exact h1

/-- C10: starting from a bare length, after the `i`-th dense-residual unit
the length channel is the tuple `(length, y, y_len)` whose accumulator lists
hold exactly `i` entries (each unit extends both lists by exactly one), and
`JasperFinalBlock` consumes only the scalar length component, so its result
does not depend on the accumulator. -/
theorem claim10_length_channel_accumulator (units : List UnitParams) (x0 : Tensor)
    (l0 : Int) (hne : units ≠ []) :
    (∃ l y yl, (applyUnitsDR units (x0, LenCh.plain l0)).2 = LenCh.tup l y yl ∧
      y.length = units.length ∧ yl.length = units.length) ∧
    (∀ (u : UnitParams) (x : Tensor) (l : Int) (y : List Tensor) (yl : List Int),
      (JasperUnit.callDR u.identityBlocks u.body u.useDropout u.drop x
          (LenCh.tup l y yl)).2 =
        LenCh.tup (u.body x l).2 (y ++ [x]) (yl ++ [l])) ∧
    (∀ (conv1 conv2 : Tensor → Int → Tensor × Int) (x : Tensor) (l : Int)
        (y : List Tensor) (yl : List Int),
      JasperFinalBlock.call conv1 conv2 x (LenCh.tup l y yl) =
        JasperFinalBlock.call conv1 conv2 x (LenCh.plain l)) := by
  refine ⟨?_, fun u x l y yl => rfl, fun conv1 conv2 x l y yl => rfl⟩
  cases units with
  | nil => exact absurd rfl hne
  | cons u rest =>
    have hpair : JasperUnit.callDR u.identityBlocks u.body u.useDropout u.drop x0
        (LenCh.plain l0) =
        ((JasperUnit.callDR u.identityBlocks u.body u.useDropout u.drop x0
            (LenCh.plain l0)).1,
          LenCh.tup (u.body x0 l0).2 [x0] [l0]) := rfl
    obtain ⟨l2, y2, yl2, h1, h2, h3⟩ :=
      applyUnitsDR_tup rest (JasperUnit.callDR u.identityBlocks u.body u.useDropout u.drop x0
        (LenCh.plain l0)).1 (u.body x0 l0).2 [x0] [l0]
    refine ⟨l2, y2, yl2, ?_, by simp at h2 ⊢; omega, by simp at h3 ⊢; omega⟩
    simp only [applyUnitsDR, List.foldl_cons] at h1 ⊢
    rw [hpair]
    exact h1

/-- Witness for C10 with one concrete unit. -/
theorem claim10_witness :
    ([⟨[fun z _ => (z, 0)], fun z l2 => (z, l2), false, id⟩] : List UnitParams) ≠ [] ∧
    ((∃ l y yl,
        (applyUnitsDR [⟨[fun z _ => (z, 0)], fun z l2 => (z, l2), false, id⟩]
            ([[1, 2]], LenCh.plain 3)).2 = LenCh.tup l y yl ∧
        y.length = ([⟨[fun z _ => (z, 0)], fun z l2 => (z, l2), false, id⟩] :
          List UnitParams).length ∧
        yl.length = ([⟨[fun z _ => (z, 0)], fun z l2 => (z, l2), false, id⟩] :
          List UnitParams).length) ∧
      (∀ (u : UnitParams) (x : Tensor) (l : Int) (y : List Tensor) (yl : List Int),
        (JasperUnit.callDR u.identityBlocks u.body u.useDropout u.drop x
            (LenCh.tup l y yl)).2 =
          LenCh.tup (u.body x l).2 (y ++ [x]) (yl ++ [l])) ∧
      (∀ (conv1 conv2 : Tensor → Int → Tensor × Int) (x : Tensor) (l : Int)
          (y : List Tensor) (yl : List Int),
        JasperFinalBlock.call conv1 conv2 x (LenCh.tup l y yl) =
          JasperFinalBlock.call conv1 conv2 x (LenCh.plain l))) :=
  ⟨by simp,
    claim10_length_channel_accumulator
      [⟨[fun z _ => (z, 0)], fun z l2 => (z, l2), false, id⟩] [[1, 2]] 3 (by simp)⟩

/-- `headD` of a mapped range, for a positive range. -/
theorem headD_range_map {β : Type} (f : Nat → β) (n : Nat) (hn : 0 < n) (d : β) :
    ((List.range n).map f).headD d = f 0 := by
  cases n with
  | zero => omega
  | succ m => simp [List.range_succ_eq_map]

/-- Length of a flattened list with uniform row length. -/
theorem flatten_length_uniform {α : Type} (l : List (List α)) (n : Nat)
    (h : ∀ r ∈ l, r.length = n) : l.flatten.length = l.length * n := by
  induction l with
  | nil => simp
  | cons a rest ih =>
    simp only [List.flatten_cons, List.length_append, List.length_cons,
      h a (by simp), ih (fun r hr => h r (by simp [hr]))]
    ring

/-- C8: for `groups` dividing the channel count, the channel shuffle
(reshape to `(groups, cpg)`, swap the axes, flatten back) keeps the channel
count, moves input channel `g * cpg + j` to output channel `j * groups + g`
with the time rows untouched, and this index map covers every channel (a
bijective permutation); in a depthwise-separable block the shuffle is
applied exactly when the grouped pointwise convolution has `groups > 1`. -/
theorem claim8_channel_shuffle (groups chn : Nat) (x : Tensor) (hx : x.length = chn)
    (hdvd : groups ∣ chn) (hg : 0 < groups) :
    ((ChannelShuffle1d.call groups x).length = chn ∧
      ∀ (g j : Nat), g < groups → j < chn / groups →
        (ChannelShuffle1d.call groups x).getD (j * groups + g) [] =
          x.getD (g * (chn / groups) + j) []) ∧
    (∀ c : Nat, c < chn →
      ∃ g j, g < groups ∧ j < chn / groups ∧ c = g * (chn / groups) + j ∧
        j * groups + g < chn) ∧
    (∀ (dwConv pwConv : Tensor → Int → Tensor × Int) (useBn : Bool)
        (bnS bnSh : List Int) (act ud : Bool) (dp : Tensor → Tensor)
        (x0 : Tensor) (l0 : Int),
      (1 < groups →
        DwsConvBlock1d.call dwConv pwConv groups useBn bnS bnSh act ud dp x0 l0 =
          (DwsConvBlock1d.post useBn bnS bnSh act ud dp
            (ChannelShuffle1d.call groups (pwConv (dwConv x0 l0).1 (dwConv x0 l0).2).1),
            (pwConv (dwConv x0 l0).1 (dwConv x0 l0).2).2)) ∧
      (¬1 < groups →
        DwsConvBlock1d.call dwConv pwConv groups useBn bnS bnSh act ud dp x0 l0 =
          (DwsConvBlock1d.post useBn bnS bnSh act ud dp
            (pwConv (dwConv x0 l0).1 (dwConv x0 l0).2).1,
            (pwConv (dwConv x0 l0).1 (dwConv x0 l0).2).2))) := by
  have hxlen : x.length / groups = chn / groups := by rw [hx]
  have hcall : ChannelShuffle1d.call groups x =
      (ChannelShuffle1d.swapAxes
        (ChannelShuffle1d.reshapeGroups groups (chn / groups) x)).flatten := by
    unfold ChannelShuffle1d.call
    rw [hxlen]
  have hmlen : (ChannelShuffle1d.reshapeGroups groups (chn / groups) x).length = groups := by
    simp [ChannelShuffle1d.reshapeGroups]
  have hmhead :
      ((ChannelShuffle1d.reshapeGroups groups (chn / groups) x).headD []).length =
        chn / groups := by
    unfold ChannelShuffle1d.reshapeGroups
    rw [headD_range_map _ _ hg]
    simp
  have hslen :
      (ChannelShuffle1d.swapAxes
        (ChannelShuffle1d.reshapeGroups groups (chn / groups) x)).length = chn / groups := by
    unfold ChannelShuffle1d.swapAxes
    rw [List.length_map, List.length_range, hmhead]
  have hsrows : ∀ r ∈ ChannelShuffle1d.swapAxes
      (ChannelShuffle1d.reshapeGroups groups (chn / groups) x), r.length = groups := by
    intro r hr
    unfold ChannelShuffle1d.swapAxes at hr
    simp only [List.mem_map] at hr
    obtain ⟨j, _, rfl⟩ := hr
    simp [hmlen]
  refine ⟨⟨?_, ?_⟩, ?_, ?_⟩
  · rw [hcall, flatten_length_uniform _ groups hsrows, hslen, Nat.div_mul_cancel hdvd]
  · intro g j hgg hj
    rw [hcall, getD_flatten_uniform _ groups hsrows j g (by omega) hgg]
    unfold ChannelShuffle1d.swapAxes
    rw [getD_range_map _ _ _ (by rw [hmhead]; omega)]
    rw [getD_range_map _ _ _ (by rw [hmlen]; omega)]
    unfold ChannelShuffle1d.reshapeGroups
    rw [getD_range_map _ _ _ hgg]
    rw [getD_range_map _ _ _ hj]
  · intro c hc
    obtain ⟨cpg0, hc0⟩ := hdvd
    have hq : chn / groups = cpg0 := by
      rw [hc0, Nat.mul_div_cancel_left _ hg]
    have hcpos : 0 < cpg0 := by
      rcases Nat.eq_zero_or_pos cpg0 with h0 | h0
      · rw [h0, Nat.mul_zero] at hc0
        omega
      · exact h0
    have hcl : c < cpg0 * groups := by
      rw [Nat.mul_comm cpg0 groups]
      omega
    refine ⟨c / cpg0, c % cpg0, Nat.div_lt_of_lt_mul hcl, by rw [hq]; exact Nat.mod_lt _ hcpos,
      ?_, ?_⟩
    · rw [hq]
      have hdm := Nat.div_add_mod c cpg0
      have hcomm : cpg0 * (c / cpg0) = c / cpg0 * cpg0 := Nat.mul_comm _ _
      omega
    · have hjlt : c % cpg0 + 1 ≤ cpg0 := Nat.mod_lt _ hcpos
      have h1 : (c % cpg0 + 1) * groups ≤ cpg0 * groups :=
        Nat.mul_le_mul_right groups hjlt
      have h2 : c / cpg0 < groups := Nat.div_lt_of_lt_mul hcl
      calc c % cpg0 * groups + c / cpg0
          < c % cpg0 * groups + groups := by omega
        _ = (c % cpg0 + 1) * groups := by ring
        _ ≤ cpg0 * groups := h1
        _ = groups * cpg0 := Nat.mul_comm _ _
        _ = chn := hc0.symm
  · intro dwConv pwConv useBn bnS bnSh act ud dp x0 l0
    constructor <;> intro h <;>
      simp [DwsConvBlock1d.call, DwsConvBlock1d.useChannelShuffle, h]

/-- Witness for C8: four channels shuffled with two groups. -/
theorem claim8_witness :
    (([[1], [2], [3], [4]] : Tensor).length = 4 ∧ (2 : Nat) ∣ 4 ∧ 0 < 2) ∧
    ((ChannelShuffle1d.call 2 [[1], [2], [3], [4]]).length = 4 ∧
      ∀ (g j : Nat), g < 2 → j < 4 / 2 →
        (ChannelShuffle1d.call 2 [[1], [2], [3], [4]]).getD (j * 2 + g) [] =
          ([[1], [2], [3], [4]] : Tensor).getD (g * (4 / 2) + j) []) :=
  ⟨⟨by decide, by decide, by decide⟩,
    (claim8_channel_shuffle 2 4 [[1], [2], [3], [4]] (by decide) (by decide) (by decide)).1⟩

/-- A unit-body convolution (odd kernel, stride 1, pad `k//2`) keeps the
physical time length. -/
theorem convDescOut_unit (k t : Nat) (hk : k % 2 = 1) (ht : 1 ≤ t) :
    convDescOut ⟨k, 1, k / 2, 1⟩ t = t := by
  show (t + 2 * (k / 2) - 1 * (k - 1) - 1) / 1 + 1 = t
  omega

/-- The stem convolution (odd kernel, stride 2, pad `k//2`) halves the
physical time length, rounding up. -/
theorem convDescOut_stem (k t : Nat) (hk : k % 2 = 1) (ht : 1 ≤ t) :
    convDescOut ⟨k, 2, k / 2, 1⟩ t = (t - 1) / 2 + 1 := by
  show (t + 2 * (k / 2) - 1 * (k - 1) - 1) / 2 + 1 = (t - 1) / 2 + 1
  omega

/-- The final dilated convolution (odd kernel, stride 1, pad `2*k//2-1`,
dilation 2) keeps the physical time length. -/
theorem convDescOut_dilated (k t : Nat) (hk : k % 2 = 1) (ht : 1 ≤ t) :
    convDescOut ⟨k, 1, 2 * k / 2 - 1, 2⟩ t = t := by
  show (t + 2 * (2 * k / 2 - 1) - 2 * (k - 1) - 1) / 1 + 1 = t
  omega

/-- A 1-kernel, stride-1, unpadded convolution keeps the physical time
length. -/
theorem convDescOut_pw (t : Nat) (ht : 1 ≤ t) : convDescOut ⟨1, 1, 0, 1⟩ t = t := by
  show (t + 2 * 0 - 1 * (1 - 1) - 1) / 1 + 1 = t
  omega

/-- A fold of length-preserving convolutions is the identity. -/
theorem foldl_convDescOut_preserve (descs : List ConvDesc) (t : Nat) (ht : 1 ≤ t)
    (h : ∀ cd ∈ descs, ∀ t2 : Nat, 1 ≤ t2 → convDescOut cd t2 = t2) :
    descs.foldl (fun t2 cd => convDescOut cd t2) t = t := by
  induction descs generalizing t with
  | nil => rfl
  | cons a rest ih =>
    rw [List.foldl_cons, h a (by simp) t ht]
    exact ih t ht (fun cd hcd => h cd (by simp [hcd]))

/-- All main-path convolutions generated for the units (odd kernels, stride
1, pad `k//2`, plus pointwise convolutions when depthwise) preserve the
physical time length. -/
theorem unit_descs_preserve (useDw : Bool) (ks : List Nat) (rep : Nat)
    (hodd : ∀ k ∈ ks, k % 2 = 1) :
    ∀ cd ∈ ks.flatMap (fun k => (List.replicate rep (blockDescs useDw k 1 (k / 2) 1)).flatten),
      ∀ t : Nat, 1 ≤ t → convDescOut cd t = t := by
  intro cd hcd t ht
  simp only [List.mem_flatMap, List.mem_flatten, List.mem_replicate] at hcd
  obtain ⟨k, hk, l, ⟨_, rfl⟩, hcdl⟩ := hcd
  have hko := hodd k hk
  cases useDw with
  | false =>
    simp only [blockDescs, Bool.false_eq_true, if_false, List.mem_singleton] at hcdl
    subst hcdl
    exact convDescOut_unit k t hko ht
  | true =>
    simp only [blockDescs, if_true, List.mem_cons, List.mem_singleton] at hcdl
    rcases hcdl with rfl | rfl | h
    · exact convDescOut_unit k t hko ht
    · exact convDescOut_pw t ht
    · simp at h

/-- Fold of the stem block's convolutions: halve rounding up (and the
pointwise convolution of a depthwise stem preserves). -/
theorem stem_fold (useDw : Bool) (k0 t : Nat) (hk : k0 % 2 = 1) (ht : 1 ≤ t) :
    (blockDescs useDw k0 2 (k0 / 2) 1).foldl (fun t2 cd => convDescOut cd t2) t =
      (t - 1) / 2 + 1 := by
  cases useDw with
  | false =>
    simp only [blockDescs, Bool.false_eq_true, if_false, List.foldl_cons, List.foldl_nil]
    exact convDescOut_stem k0 t hk ht
  | true =>
    simp only [blockDescs, if_true, List.foldl_cons, List.foldl_nil]
    rw [convDescOut_stem k0 t hk ht, convDescOut_pw _ (by omega)]

/-- Fold of the final block's dilated convolution (with the pointwise
convolution of a depthwise variant): identity on the length. -/
theorem final1_fold (useDw : Bool) (k6 t : Nat) (hk6 : k6 % 2 = 1) (ht : 1 ≤ t) :
    (blockDescs useDw k6 1 (2 * k6 / 2 - 1) 2).foldl (fun t2 cd => convDescOut cd t2) t = t := by
  cases useDw with
  | false =>
    simp only [blockDescs, Bool.false_eq_true, if_false, List.foldl_cons, List.foldl_nil]
    exact convDescOut_dilated k6 t hk6 ht
  | true =>
    simp only [blockDescs, if_true, List.foldl_cons, List.foldl_nil]
    rw [convDescOut_dilated k6 t hk6 ht, convDescOut_pw t ht]

/-- Fold of the final block's closing 1-kernel convolution block: identity
on the length. -/
theorem final2_fold (k7 t : Nat) (hk7 : k7 % 2 = 1) (ht : 1 ≤ t) :
    (blockDescs false k7 1 (k7 / 2) 1).foldl (fun t2 cd => convDescOut cd t2) t = t := by
  simp only [blockDescs, Bool.false_eq_true, if_false, List.foldl_cons, List.foldl_nil]
  exact convDescOut_unit k7 t hk7 ht

/-- The head of a nonempty list, with a default. -/
theorem headD_mem {α : Type} (l : List α) (d : α) (h : l ≠ []) : l.headD d ∈ l := by
  cases l with
  | nil => exact absurd rfl h
  | cons a rest => simp

/-- An in-range `getD` is a member. -/
theorem getD_mem_of_lt {α : Type} (l : List α) (i : Nat) (d : α) (h : i < l.length) :
    l.getD i d ∈ l := by
  rw [List.getD_eq_getElem?_getD, List.getElem?_eq_getElem h]
  exact List.getElem_mem h

/-- The kernel schedule produced by a successful non-pretrained `get_jasper`
is the expansion of one of the two family kernel tables. -/
theorem get_jasper_ok_ksizes (mt vs : List Char) (dw dr : Bool)
    (cfg : GetJasper.JasperCfg) (fw : Option (List Char))
    (hok : GetJasper.get_jasper mt vs dw dr none false = .ok (cfg, fw)) :
    ∃ r : Nat, cfg.ksizes = GetJasper.expandStages GetJasper.jasperKsizesPerStage r ∨
      cfg.ksizes = GetJasper.expandStages GetJasper.quartznetKsizesPerStage r := by
  unfold GetJasper.get_jasper at hok
  cases hpv : GetJasper.parseVersion vs with
  | none =>
    rw [hpv] at hok
    simp at hok
  | some br =>
    rw [hpv] at hok
    obtain ⟨b, rep⟩ := br
    cases hft : GetJasper.familyTables mt with
    | none =>
      rw [hft] at hok
      simp at hok
    | some tbls =>
      rw [hft] at hok
      simp only [Bool.false_eq_true, if_false, Except.ok.injEq, Prod.mk.injEq] at hok
      obtain ⟨hcfg, _⟩ := hok
      refine ⟨(pyFloorDiv b 5).toNat, ?_⟩
      unfold GetJasper.familyTables at hft
      split at hft
      · left
        rw [← hcfg]
        injection hft with h
        rw [← h]
      · split at hft
        · right
          rw [← hcfg]
          injection hft with h
          rw [← h]
        · exact absurd hft (by simp)

/-- C6: for every model configuration built by `get_jasper` (either family,
any parsed version, with or without depthwise blocks) and every physical
input time length `T ≥ 1`, the main path produces physical time length
`(T-1)/2 + 1` (the stem's stride-2 halving; every other main-path
convolution preserves the length), which equals `T/2` or `T/2 + 1`; and the
output projection produces exactly one channel row per filter, so with the
`classes`-filter output convolution the logits channel dimension is exactly
`classes`. -/
theorem claim6_output_shape (mt vs : List Char) (dw dr : Bool)
    (cfg : GetJasper.JasperCfg) (fw : Option (List Char))
    (hok : GetJasper.get_jasper mt vs dw dr none false = .ok (cfg, fw))
    (tim : Nat) (ht : 1 ≤ tim) :
    jasperPhysTime cfg tim = (tim - 1) / 2 + 1 ∧
    (jasperPhysTime cfg tim = tim / 2 ∨ jasperPhysTime cfg tim = tim / 2 + 1) ∧
    (∀ (W : List (List Row)) (z : Tensor) (classes : Nat),
      W.length = classes → (conv1d W 1 0 1 z).length = classes) := by
  obtain ⟨r, hks⟩ := get_jasper_ok_ksizes mt vs dw dr cfg fw hok
  have hodd : ∀ k ∈ cfg.ksizes, k % 2 = 1 := by
    intro k hk
    rcases hks with hks | hks
    · rw [hks] at hk
      have hm := GetJasper.mem_of_mem_expandStages _ r k hk
      exact (by decide : ∀ k2 ∈ GetJasper.jasperKsizesPerStage, k2 % 2 = 1) k hm
    · rw [hks] at hk
      have hm := GetJasper.mem_of_mem_expandStages _ r k hk
      exact (by decide : ∀ k2 ∈ GetJasper.quartznetKsizesPerStage, k2 % 2 = 1) k hm
  have hlen : cfg.ksizes.length = 5 * r + 3 := by
    rcases hks with hks | hks
    · rw [hks]
      exact GetJasper.expandStages_length 11 11 13 17 21 25 29 1 r
    · rw [hks]
      exact GetJasper.expandStages_length 33 33 39 51 63 75 87 1 r
  have hne : cfg.ksizes ≠ [] := by
    intro h
    rw [h] at hlen
    simp at hlen
  have hk0 : cfg.ksizes.headD 1 % 2 = 1 := hodd _ (headD_mem _ 1 hne)
  have hk6 : cfg.ksizes.getD (cfg.ksizes.length - 2) 1 % 2 = 1 :=
    hodd _ (getD_mem_of_lt _ _ 1 (by omega))
  have hk7 : cfg.ksizes.getD (cfg.ksizes.length - 1) 1 % 2 = 1 :=
    hodd _ (getD_mem_of_lt _ _ 1 (by omega))
  have hunit : ∀ k ∈ ((cfg.ksizes.drop 1).dropLast).dropLast, k % 2 = 1 := by
    intro k hk
    apply hodd
    have h1 : (((cfg.ksizes.drop 1).dropLast).dropLast).Sublist cfg.ksizes :=
      (List.dropLast_sublist _).trans ((List.dropLast_sublist _).trans
        (List.drop_sublist 1 _))
    exact h1.subset hk
  have hmain : jasperPhysTime cfg tim = (tim - 1) / 2 + 1 := by
    simp only [jasperPhysTime, jasperNetDescs, List.foldl_append]
    rw [stem_fold cfg.useDw _ tim hk0 ht]
    rw [foldl_convDescOut_preserve _ _ (by omega)
      (unit_descs_preserve cfg.useDw _ cfg.bodyRepeat.toNat hunit)]
    rw [final1_fold cfg.useDw _ _ hk6 (by omega)]
    rw [final2_fold _ _ hk7 (by omega)]
    rw [List.foldl_cons, List.foldl_nil, convDescOut_pw _ (by omega)]
  refine ⟨hmain, by rw [hmain]; omega, fun W z classes hW => ?_⟩
  simp only [conv1d, List.length_map]
  exact hW

/-- Witness for C6 on the 5x3 Jasper configuration at physical input time
length 10. -/
theorem claim6_witness :
    GetJasper.get_jasper GetJasper.jasperTag ['5', 'x', '3'] false false none false =
      .ok (⟨GetJasper.expandStages GetJasper.jasperChannelsPerStage 1,
          GetJasper.expandStages GetJasper.jasperKsizesPerStage 1,
          GetJasper.expandStages GetJasper.jasperDropoutRatesPerStage 1, 3, false, false⟩,
        none) ∧ 1 ≤ 10 ∧
    (jasperPhysTime ⟨GetJasper.expandStages GetJasper.jasperChannelsPerStage 1,
        GetJasper.expandStages GetJasper.jasperKsizesPerStage 1,
        GetJasper.expandStages GetJasper.jasperDropoutRatesPerStage 1, 3, false, false⟩ 10 =
        (10 - 1) / 2 + 1 ∧
      (jasperPhysTime ⟨GetJasper.expandStages GetJasper.jasperChannelsPerStage 1,
          GetJasper.expandStages GetJasper.jasperKsizesPerStage 1,
          GetJasper.expandStages GetJasper.jasperDropoutRatesPerStage 1, 3, false, false⟩ 10 =
          10 / 2 ∨
        jasperPhysTime ⟨GetJasper.expandStages GetJasper.jasperChannelsPerStage 1,
          GetJasper.expandStages GetJasper.jasperKsizesPerStage 1,
          GetJasper.expandStages GetJasper.jasperDropoutRatesPerStage 1, 3, false, false⟩ 10 =
          10 / 2 + 1) ∧
      (∀ (W : List (List Row)) (z : Tensor) (classes : Nat),
        W.length = classes → (conv1d W 1 0 1 z).length = classes)) :=
  ⟨by rfl, by decide,
    claim6_output_shape GetJasper.jasperTag ['5', 'x', '3'] false false
      ⟨GetJasper.expandStages GetJasper.jasperChannelsPerStage 1,
        GetJasper.expandStages GetJasper.jasperKsizesPerStage 1,
        GetJasper.expandStages GetJasper.jasperDropoutRatesPerStage 1, 3, false, false⟩
      none (by rfl) 10 (by decide)⟩
